import Mathlib

/-!
Verification of the editable-note state-propagation pattern from the
react-book repository.  The definitions below are shallow embeddings of
the JavaScript component handlers found in
`manuscript/getting_started/04_editing_notes.md` and
`project_source/10_polishing_kanban/kanban_app/app/components/Lane.jsx`.
-/

/-- A note item: `{id, task, editing}` as held in the owner's state.
Ids are modelled as naturals (the collision-free generator is external). -/
structure Note where
  id : Nat
  task : String
  editing : Bool
deriving DecidableEq

/-- The list of ids appearing in a collection, in order. -/
def noteIds (notes : List Note) : List Nat :=
  notes.map Note.id

/-- JavaScript's `String.prototype.trim`: strips whitespace from both ends of
the string, embedded over the string's character list. -/
def jsTrim (s : String) : String :=
  String.mk (((s.data.dropWhile Char.isWhitespace).reverse.dropWhile
    Char.isWhitespace).reverse)

/-- Embedding of `App.activateNoteEdit` (04_editing_notes.md, lines 210-220):
`notes.map(note => { if(note.id === id) { note.editing = true; } return note; })`. -/
def activateNoteEdit (notes : List Note) (id : Nat) : List Note :=
  notes.map (fun note => if note.id = id then { note with editing := true } else note)

/-- Embedding of the first `App.editNote` (04_editing_notes.md, lines 221-231):
it only resets the `editing` flag of the matching note and ignores the task. -/
def editNoteFlagOnly (notes : List Note) (id : Nat) (task : String) : List Note :=
  notes.map (fun note => if note.id = id then { note with editing := false } else note)

/-- Embedding of the final `App.editNote` (04_editing_notes.md, lines 383-398):
`if(!task.trim()) { return; }` then
`notes.map(note => { if(note.id === id && task) { note.task = task; } return note; })`. -/
def editNote (notes : List Note) (id : Nat) (task : String) : List Note :=
  if jsTrim task = "" then notes
  else notes.map (fun note =>
    if note.id = id ∧ task ≠ "" then { note with task := task } else note)

/-- Embedding of `Lane.edited` (Lane.jsx, lines 53-60), abstract in the store
actions it dispatches: `if(value) { actions.update(id, value); } else
{ actions.remove(id); }`.  JavaScript string truthiness: truthy iff nonempty. -/
def laneEdited {α : Type} (update : Nat → String → α) (remove : Nat → α)
    (id : Nat) (value : String) : α :=
  if value ≠ "" then update id value else remove id

/-- Modelled from the spec: the note store's `remove(id)` action (the
`NoteStore` body is not under src/); per the spec, `remove(id)` "removes item
by id unconditionally", leaving all other items in place. -/
def removeNote (notes : List Note) (id : Nat) : List Note :=
  notes.filter (fun note => note.id ≠ id)

/-- Modelled from the spec: the note store's `update(id, value)` action (the
`NoteStore` body is not under src/); it sets the matching item's value to the
value it receives, leaving every other item unchanged. -/
def updateNote (notes : List Note) (id : Nat) (value : String) : List Note :=
  notes.map (fun note => if note.id = id then { note with task := value } else note)

/-- `Lane.edited` instantiated with the collection-level store actions. -/
def laneEditedNotes (notes : List Note) (id : Nat) (value : String) : List Note :=
  laneEdited (fun i v => updateNote notes i v) (fun i => removeNote notes i) id value

/-- Modelled from the spec: `add()` (the App's `addNote` body is elided in the
manuscript and `NoteStore.create`, reached from `Lane.addNote` via
`actions.create('New note')`, is not under src/); per the spec, `add()`
"appends a new Item with a freshly generated unique id, a default value,
`editing=false`".  The freshly generated id is a parameter, standing for the
external collision-free id generator. -/
def addNote (notes : List Note) (freshId : Nat) : List Note :=
  notes ++ [{ id := freshId, task := "New note", editing := false }]

/-- The branch rendered by the `Editable` composite: either the edit (input)
view or the value view, carrying the value and the forwarded callback. -/
inductive EditableRender (A B : Type) where
  | editView (value : String) (onEdit : A)
  | valueView (value : String) (onValueClick : B)
deriving DecidableEq

/-- Embedding of the `Editable` component (04_editing_notes.md, lines 97-104):
`editing ? <Edit value={value} onEdit={onEdit} /> :
<Value value={value} onValueClick={onValueClick} />`.  It is a pure function
of its props, with callbacks of abstract types `A` and `B`. -/
def Editable {A B : Type} (editing : Bool) (value : String)
    (onEdit : A) (onValueClick : B) : EditableRender A B :=
  if editing then .editView value onEdit else .valueView value onValueClick

/-- Embedding of `Note.finishEdit` (04_editing_notes.md, lines 316-335): reads
the input's value; if an `onEdit` prop is present, invokes it and sets
`editing` to `false`; otherwise does nothing.  Returns the new `editing`
state paired with the list of `onEdit` invocations it emitted. -/
def finishEdit (hasOnEdit : Bool) (editing : Bool) (value : String) :
    Bool × List String :=
  if hasOnEdit then (false, [value]) else (editing, [])

/-- A user event reaching the `Note` component: a click on the rendered value,
a key press in the input (carrying the input's current value), or an input
blur (carrying the input's current value). -/
inductive NoteEvent where
  | click
  | keyPress (key : String) (value : String)
  | blur (value : String)
deriving DecidableEq

/-- Whether the event is a click. -/
def NoteEvent.isClick : NoteEvent → Bool
  | .click => true
  | _ => false

/-- Dispatch of one event against the handlers the `Note` component attaches
in its current render: when `editing` is true, `renderEdit` mounts the input
with `onBlur={this.finishEdit}` and `onKeyPress={this.checkEnter}` (which
calls `finishEdit` only on the Enter key); when `editing` is false,
`renderNote` mounts a div with `onClick={this.edit}` (which sets
`editing` to true).  Events with no mounted handler are ignored. -/
def noteDispatch (hasOnEdit : Bool) (editing : Bool) :
    NoteEvent → Bool × List String
  | .click => if editing then (editing, []) else (true, [])
  | .keyPress key value =>
    if editing then
      (if key = "Enter" then finishEdit hasOnEdit editing value else (editing, []))
    else (editing, [])
  | .blur value =>
    if editing then finishEdit hasOnEdit editing value else (editing, [])

/-- Run a sequence of events through `noteDispatch`, collecting every
`onEdit` invocation emitted along the way. -/
def noteRun (hasOnEdit : Bool) (editing : Bool) :
    List NoteEvent → Bool × List String
  | [] => (editing, [])
  | e :: es =>
    let r := noteDispatch hasOnEdit editing e
    let rest := noteRun hasOnEdit r.1 es
    (rest.1, r.2 ++ rest.2)

/-- Mapping a function that fixes every member of a list is the identity. -/
theorem map_id_of_mem {α : Type} (f : α → α) :
    ∀ l : List α, (∀ a ∈ l, f a = a) → l.map f = l := by
  intro l
  induction l with
  | nil => intro _; rfl
  | cons a l ih =>
    intro h
    have ha := h a (List.mem_cons_self a l)
    have hl : ∀ x ∈ l, f x = x := fun x hx => h x (List.mem_cons_of_mem a hx)
    simp [ha, ih hl]

/-- Mapping an observation `g` over a transformation `f` that preserves `g`
gives the same observations as on the original list. -/
theorem map_map_of_pres {α β : Type} (f : α → α) (g : α → β)
    (h : ∀ a, g (f a) = g a) :
    ∀ l : List α, (l.map f).map g = l.map g := by
  intro l
  induction l with
  | nil => rfl
  | cons a l ih => simp [h, ih]

/-- Appending a fresh element to a duplicate-free list keeps it
duplicate-free. -/
theorem nodup_append_singleton {α : Type} (a : α) :
    ∀ l : List α, l.Nodup → a ∉ l → (l ++ [a]).Nodup := by
  intro l
  induction l with
  | nil => simp
  | cons b l ih =>
    intro hn hm
    rw [List.nodup_cons] at hn
    rw [List.mem_cons] at hm
    push_neg at hm
    rw [List.cons_append, List.nodup_cons]
    refine ⟨?_, ih hn.2 hm.2⟩
    rw [List.mem_append, List.mem_singleton]
    push_neg
    exact ⟨hn.1, fun hba => hm.1 hba.symm⟩

/-- Every transformation used by the owner handlers preserves the `id`
of each note. -/
theorem noteIds_activate (notes : List Note) (id : Nat) :
    noteIds (activateNoteEdit notes id) = noteIds notes := by
  simp only [noteIds, activateNoteEdit]
  refine map_map_of_pres _ _ (fun n => ?_) notes
  by_cases h : n.id = id <;> simp [h]

/-- `C1` counterexample: committing a blank value does not remove the item.
`editNote` leaves the collection unchanged for both the empty and the
whitespace-only value, and `Lane.edited` updates (rather than removes) on a
whitespace-only value; the item with id 1 is still present in each case. -/
theorem editNote_blank_no_remove_cex :
    editNote [(⟨1, "a", true⟩ : Note)] 1 "  " = [⟨1, "a", true⟩] ∧
    editNote [(⟨1, "a", true⟩ : Note)] 1 "" = [⟨1, "a", true⟩] ∧
    laneEditedNotes [(⟨1, "a", true⟩ : Note)] 1 "  " = [⟨1, "  ", true⟩] ∧
    ([(⟨1, "a", true⟩ : Note)] : List Note) ≠ [] := by decide

/-- `C1` (amended): a commit whose value is blank after trimming never removes
the item in `App.editNote` (the collection is returned unchanged), while
`Lane.edited` removes the item exactly when the value is the empty string and
otherwise takes the update path with the raw value. -/
theorem commit_blank_behavior (notes : List Note) (id : Nat) (task : String)
    (h : jsTrim task = "") :
    editNote notes id task = notes ∧
    laneEditedNotes notes id task =
      (if task = "" then removeNote notes id else updateNote notes id task) := by
  constructor
  · simp [editNote, h]
  · by_cases hv : task = "" <;> simp [laneEditedNotes, laneEdited, hv]

/-- Witness for `commit_blank_behavior` at a whitespace-only value. -/
theorem commit_blank_behavior_witness :
    editNote [(⟨1, "a", true⟩ : Note)] 1 " " = [⟨1, "a", true⟩] ∧
    laneEditedNotes [(⟨1, "a", true⟩ : Note)] 1 " " =
      updateNote [(⟨1, "a", true⟩ : Note)] 1 " " :=
  have h := commit_blank_behavior [⟨1, "a", true⟩] 1 " " (by decide)
  ⟨h.1, h.2.trans (by decide)⟩

/-- `C2` counterexample: a commit with a value that is nonempty after trimming
stores the raw, untrimmed value and leaves the `editing` flag untouched; the
result differs from the claimed trimmed-and-unflagged item. -/
theorem editNote_untrimmed_cex :
    editNote [(⟨1, "a", true⟩ : Note)] 1 " x " = [⟨1, " x ", true⟩] ∧
    editNote [(⟨1, "a", true⟩ : Note)] 1 " x " ≠ [⟨1, "x", false⟩] := by decide

/-- `C2` (amended): for a value nonempty after trimming, `editNote` updates the
matching item's value to the raw (untrimmed) input and leaves every other item
unchanged, and it leaves every item's `editing` flag as it was. -/
theorem editNote_nonblank_updates_raw (notes : List Note) (id : Nat)
    (task : String) (h : jsTrim task ≠ "") :
    editNote notes id task =
      notes.map (fun n => if n.id = id then { n with task := task } else n) ∧
    (editNote notes id task).map Note.editing = notes.map Note.editing := by
  have ht : task ≠ "" := by
    intro he
    subst he
    exact absurd (by decide) h
  have h1 : editNote notes id task =
      notes.map (fun n => if n.id = id then { n with task := task } else n) := by
    simp [editNote, h, ht]
  refine ⟨h1, ?_⟩
  rw [h1]
  refine map_map_of_pres _ _ (fun n => ?_) notes
  by_cases hn : n.id = id <;> simp [hn]

/-- Witness for `editNote_nonblank_updates_raw`. -/
theorem editNote_nonblank_updates_raw_witness :
    editNote [(⟨1, "a", true⟩ : Note), ⟨2, "b", false⟩] 1 " x "
      = [⟨1, " x ", true⟩, ⟨2, "b", false⟩] :=
  ((editNote_nonblank_updates_raw [⟨1, "a", true⟩, ⟨2, "b", false⟩] 1 " x "
    (by decide)).1).trans (by decide)

/-- `C4` counterexample: running the scenario
`activate(1); commit(1, "aa"); activate(2); commit(2, "  ")` through the
embedded handlers ends with both items still present and still in `editing`
state, not the claimed final state `[{1, "aa", false}]`. -/
theorem edit_scenario_cex :
    editNote (activateNoteEdit (editNote (activateNoteEdit
        [(⟨1, "a", false⟩ : Note), ⟨2, "b", false⟩] 1) 1 "aa") 2) 2 "  "
      = [⟨1, "aa", true⟩, ⟨2, "b", true⟩] ∧
    ([(⟨1, "aa", true⟩ : Note), ⟨2, "b", true⟩] : List Note)
      ≠ [⟨1, "aa", false⟩] := by decide

/-- `C4` (amended): the actual intermediate states of the scenario.
`activate(1)` flips item 1 to editing; `commit(1, "aa")` stores the value but
leaves `editing` true; `activate(2)` flips item 2 to editing; and
`commit(2, "  ")` is a no-op, so both items survive. -/
theorem edit_scenario_actual :
    activateNoteEdit [(⟨1, "a", false⟩ : Note), ⟨2, "b", false⟩] 1
      = [⟨1, "a", true⟩, ⟨2, "b", false⟩] ∧
    editNote [(⟨1, "a", true⟩ : Note), ⟨2, "b", false⟩] 1 "aa"
      = [⟨1, "aa", true⟩, ⟨2, "b", false⟩] ∧
    activateNoteEdit [(⟨1, "aa", true⟩ : Note), ⟨2, "b", false⟩] 2
      = [⟨1, "aa", true⟩, ⟨2, "b", true⟩] ∧
    editNote [(⟨1, "aa", true⟩ : Note), ⟨2, "b", true⟩] 2 "  "
      = [⟨1, "aa", true⟩, ⟨2, "b", true⟩] := by decide

/-- `C3`: `activateNoteEdit` is pointwise — it preserves the length, and at
every position the item whose id matches gets `editing := true` (its id and
task untouched) while every other item is returned unchanged. -/
theorem activateNoteEdit_pointwise (notes : List Note) (id : Nat) :
    (activateNoteEdit notes id).length = notes.length ∧
    ∀ i : Nat, (activateNoteEdit notes id)[i]? =
      (notes[i]?).map
        (fun n => if n.id = id then { n with editing := true } else n) := by
  constructor
  · simp [activateNoteEdit]
  · intro i
    simp [activateNoteEdit, List.getElem?_map]

/-- `C5`: when no item carries the given id, `editNote`, `remove`, and the
`Lane.edited` dispatch all leave the collection unchanged. -/
theorem unknown_id_noop (notes : List Note) (id : Nat) (task : String)
    (h : ∀ n ∈ notes, n.id ≠ id) :
    editNote notes id task = notes ∧
    removeNote notes id = notes ∧
    laneEditedNotes notes id task = notes := by
  have hupd : updateNote notes id task = notes := by
    refine map_id_of_mem _ notes (fun n hn => ?_)
    simp [h n hn]
  have hrem : removeNote notes id = notes := by
    refine List.filter_eq_self.mpr (fun n hn => ?_)
    simp [h n hn]
  refine ⟨?_, hrem, ?_⟩
  · by_cases htr : jsTrim task = ""
    · simp [editNote, htr]
    · rw [editNote, if_neg htr]
      refine map_id_of_mem _ notes (fun n hn => ?_)
      simp [h n hn]
  · by_cases hv : task = "" <;>
      simp [laneEditedNotes, laneEdited, hv, hupd, hrem]

/-- Witness for `unknown_id_noop` at id 2, absent from the collection. -/
theorem unknown_id_noop_witness :
    editNote [(⟨1, "a", false⟩ : Note)] 2 "x" = [⟨1, "a", false⟩] ∧
    removeNote [(⟨1, "a", false⟩ : Note)] 2 = [⟨1, "a", false⟩] ∧
    laneEditedNotes [(⟨1, "a", false⟩ : Note)] 2 "x" = [⟨1, "a", false⟩] :=
  unknown_id_noop [⟨1, "a", false⟩] 2 "x" (by decide)

/-- `C10`: `activateNoteEdit` on an id not in the collection is a no-op, and
on any id it preserves the collection's length and the sequence of ids
(so it never adds, removes, or reorders items). -/
theorem activateNoteEdit_noop_and_order (notes : List Note) (id : Nat) :
    ((∀ n ∈ notes, n.id ≠ id) → activateNoteEdit notes id = notes) ∧
    (activateNoteEdit notes id).length = notes.length ∧
    noteIds (activateNoteEdit notes id) = noteIds notes := by
  refine ⟨?_, ?_, noteIds_activate notes id⟩
  · intro h
    refine map_id_of_mem _ notes (fun n hn => ?_)
    simp [h n hn]
  · simp [activateNoteEdit]

/-- Witness for `activateNoteEdit_noop_and_order` at an absent id. -/
theorem activateNoteEdit_noop_and_order_witness :
    activateNoteEdit [(⟨1, "a", false⟩ : Note)] 2 = [⟨1, "a", false⟩] :=
  (activateNoteEdit_noop_and_order [⟨1, "a", false⟩] 2).1 (by decide)

/-- After a session has committed, the `Note` component renders the plain
value (no input is mounted), so any further non-click events emit nothing
and leave the component out of editing state. -/
theorem noteRun_inactive (hasOnEdit : Bool) :
    ∀ events : List NoteEvent, (∀ e ∈ events, e.isClick = false) →
      noteRun hasOnEdit false events = (false, []) := by
  intro events
  induction events with
  | nil => intro _; rfl
  | cons e es ih =>
    intro h
    have he := h e (List.mem_cons_self e es)
    have hes : ∀ x ∈ es, x.isClick = false :=
      fun x hx => h x (List.mem_cons_of_mem e hx)
    cases e with
    | click => simp [NoteEvent.isClick] at he
    | keyPress k v => simp [noteRun, noteDispatch, ih hes]
    | blur v => simp [noteRun, noteDispatch, ih hes]

/-- `C6`: in one edit session (the component is in editing state with an
`onEdit` prop present), an Enter key press commits exactly once: the whole
remaining session — including any subsequent blur — emits exactly one
`onEdit` invocation, because the commit unmounts the input together with its
blur handler. -/
theorem finishEdit_once_per_session (v : String) (events : List NoteEvent)
    (h : ∀ e ∈ events, e.isClick = false) :
    noteRun true true (NoteEvent.keyPress "Enter" v :: events)
      = (false, [v]) := by
  simp [noteRun, noteDispatch, finishEdit, noteRun_inactive true events h]

/-- Witness for `finishEdit_once_per_session`: Enter then blur emits one
commit. -/
theorem finishEdit_once_per_session_witness :
    noteRun true true
        (NoteEvent.keyPress "Enter" "new" :: [NoteEvent.blur "stale"])
      = (false, ["new"]) :=
  finishEdit_once_per_session "new" [NoteEvent.blur "stale"] (by decide)

/-- `C7`: the `Editable` composite is a deterministic, stateless two-way
branch: identical inputs (editing flag, value, both callbacks) render the
identical branch, the input (edit) view exactly when `editing` is true and
the value view exactly when it is false. -/
theorem Editable_controlled_branch {A B : Type} (editing editing' : Bool)
    (value value' : String) (onEdit onEdit' : A)
    (onValueClick onValueClick' : B)
    (he : editing = editing') (hv : value = value') (hf : onEdit = onEdit')
    (hg : onValueClick = onValueClick') :
    Editable editing value onEdit onValueClick
      = Editable editing' value' onEdit' onValueClick' ∧
    Editable true value onEdit onValueClick
      = EditableRender.editView value onEdit ∧
    Editable false value onEdit onValueClick
      = EditableRender.valueView value onValueClick := by
  subst he hv hf hg
  exact ⟨rfl, rfl, rfl⟩

/-- Witness for `Editable_controlled_branch` with concrete callbacks. -/
theorem Editable_controlled_branch_witness :
    Editable true "v" (0 : Nat) "cb" = Editable true "v" (0 : Nat) "cb" ∧
    Editable true "v" (0 : Nat) "cb" = EditableRender.editView "v" 0 ∧
    Editable false "v" (0 : Nat) "cb" = EditableRender.valueView "v" "cb" :=
  Editable_controlled_branch true true "v" "v" 0 0 "cb" "cb" rfl rfl rfl rfl

/-- `C9`: `Lane.edited` decides removal versus update by JavaScript truthiness
of the raw committed value: it dispatches `remove(id)` when the value is the
empty string, and otherwise dispatches `update(id, value)` with the untrimmed
value — in particular a whitespace-only value (blank after trimming but
truthy) takes the update path. -/
theorem laneEdited_truthiness {α : Type} (update : Nat → String → α)
    (remove : Nat → α) (id : Nat) (value : String) :
    (value = "" → laneEdited update remove id value = remove id) ∧
    (value ≠ "" → laneEdited update remove id value = update id value) ∧
    (jsTrim value = "" → value ≠ "" →
      laneEdited update remove id value = update id value) := by
    refine ⟨fun hv => ?_, fun hv => ?_, fun _ hv => ?_⟩ <;>
      simp [laneEdited, hv]

/-- Witness for `laneEdited_truthiness`: the whitespace-only value goes to
`update` untrimmed, the empty value goes to `remove`. -/
theorem laneEdited_truthiness_witness :
    laneEdited (fun i v => (i, v)) (fun i => (i, "removed")) 1 "  "
      = (1, "  ") ∧
    laneEdited (fun i v => (i, v)) (fun i => (i, "removed")) 1 ""
      = (1, "removed") :=
  have h := laneEdited_truthiness (fun i v => (i, v))
    (fun i => (i, "removed")) 1 "  "
  have h0 := laneEdited_truthiness (fun i v => (i, v))
    (fun i => (i, "removed")) 1 ""
  ⟨h.2.2 (by decide) (by decide), h0.1 rfl⟩

/-- `editNote` preserves the sequence of ids. -/
theorem noteIds_editNote (notes : List Note) (id : Nat) (task : String) :
    noteIds (editNote notes id task) = noteIds notes := by
  by_cases htr : jsTrim task = ""
  · simp [editNote, htr]
  · rw [editNote, if_neg htr]
    simp only [noteIds]
    refine map_map_of_pres _ _ (fun n => ?_) notes
    by_cases hn : n.id = id ∧ task ≠ "" <;> simp [hn]

/-- `C8`: uniqueness of ids is an invariant.  `add` appends exactly one item,
with the freshly generated id and `editing = false`, keeping every existing
item in place; when the fresh id is really fresh (the external generator is
collision-free) the ids stay duplicate-free, and every other operation
(`activateNoteEdit`, both `editNote` variants, `update`, `remove`) also
preserves duplicate-freeness of the ids. -/
theorem unique_ids_invariant (notes : List Note) (freshId id : Nat)
    (task : String) (hfresh : freshId ∉ noteIds notes)
    (hnodup : (noteIds notes).Nodup) :
    (noteIds (addNote notes freshId)).Nodup ∧
    (addNote notes freshId).length = notes.length + 1 ∧
    (addNote notes freshId)[notes.length]?
      = some ⟨freshId, "New note", false⟩ ∧
    (∀ i : Nat, i < notes.length → (addNote notes freshId)[i]? = notes[i]?) ∧
    (noteIds (activateNoteEdit notes id)).Nodup ∧
    (noteIds (editNoteFlagOnly notes id task)).Nodup ∧
    (noteIds (editNote notes id task)).Nodup ∧
    (noteIds (updateNote notes id task)).Nodup ∧
    (noteIds (removeNote notes id)).Nodup := by
  have hids : noteIds (addNote notes freshId) = noteIds notes ++ [freshId] := by
    simp [noteIds, addNote]
  refine ⟨?_, ?_, ?_, ?_, ?_, ?_, ?_, ?_, ?_⟩
  · rw [hids]
    exact nodup_append_singleton freshId (noteIds notes) hnodup hfresh
  · simp [addNote]
  · exact List.getElem?_concat_length ..
  · intro i hi
    exact List.getElem?_append_left hi
  · rw [noteIds_activate]
    exact hnodup
  · simp only [noteIds, editNoteFlagOnly]
    rw [map_map_of_pres _ _ (fun n => by by_cases hn : n.id = id <;> simp [hn])]
    exact hnodup
  · rw [noteIds_editNote]
    exact hnodup
  · simp only [noteIds, updateNote]
    rw [map_map_of_pres _ _ (fun n => by by_cases hn : n.id = id <;> simp [hn])]
    exact hnodup
  · refine hnodup.sublist ?_
    exact (List.filter_sublist notes).map Note.id

/-- Witness for `unique_ids_invariant` with a fresh id 2 added to a
one-item collection. -/
theorem unique_ids_invariant_witness :
    (noteIds (addNote [(⟨1, "a", false⟩ : Note)] 2)).Nodup ∧
    (addNote [(⟨1, "a", false⟩ : Note)] 2).length = 1 + 1 ∧
    (addNote [(⟨1, "a", false⟩ : Note)] 2)[1]?
      = some ⟨2, "New note", false⟩ :=
  have h := unique_ids_invariant [⟨1, "a", false⟩] 2 1 "x"
    (by decide) (by decide)
  ⟨h.1, h.2.1, h.2.2.1⟩
